import Mathlib

/-!
Verification of the lattice `ltc` app-runner command factory
(`app_runner_command_factory.go`).

The Go source is shallowly embedded below: pure helpers become Lean
functions on `String`/`List`/`Nat`/`Int`; the `uint16`/`uint` machine
conversions are explicit `% 2^16` (resp. `% 2^64`) operations; fallible
functions return the Go `(value, error)` pair or an `Except`; the
convergence-polling loop is a fuel-indexed recursion on an injected clock
(only `clock.Sleep` advances time, matching the injectable-clock test
contract), threading the state mutated by the Go predicate closures and
the emitted UI/exit-handler effects.
-/

namespace Ltc

/-! ### Go string primitives

`strings.Split` with a one-character separator, `strconv.Atoi`,
`sort.Strings` (byte-lexicographic ascending; UTF-8 makes codepoint order
coincide with byte order), and `strings.HasPrefix`, embedded structurally
on `List Char` so that everything reduces in the kernel. -/

/-- Split a character list at every occurrence of `sep`.
`strings.Split` semantics: the empty input yields one empty field. -/
def splitOnChar (sep : Char) : List Char → List (List Char)
  | [] => [[]]
  | c :: rest =>
    let r := splitOnChar sep rest
    if c = sep then [] :: r
    else
      match r with
      | [] => [[c]]
      | g :: gs => (c :: g) :: gs

/-- `strings.Split(s, sep)` for a one-character separator (the only way
the source calls it: `","`, `":"`, `"="`). -/
def goSplit (s : String) (sep : Char) : List String :=
  (splitOnChar sep s.data).map (fun cs => String.mk cs)

/-- Byte-lexicographic strict order on character lists, as Go compares
strings. -/
def lexLess : List Char → List Char → Bool
  | [], [] => false
  | [], _ :: _ => true
  | _ :: _, [] => false
  | a :: as, b :: bs => if a < b then true else if b < a then false else lexLess as bs

/-- Insert a string into an ascending list, keeping it ascending. -/
def insertSorted (x : String) : List String → List String
  | [] => [x]
  | y :: ys => if lexLess y.data x.data then y :: insertSorted x ys else x :: y :: ys

/-- `sort.Strings`: sort ascending in byte-lexicographic order.  A sorted
permutation is unique, so insertion sort has exactly the Go behaviour. -/
def sortStrings : List String → List String
  | [] => []
  | x :: xs => insertSorted x (sortStrings xs)

/-- Accumulate the value of a decimal digit string; `none` on the first
non-digit character. -/
def digitsVal : List Char → Nat → Option Nat
  | [], acc => some acc
  | c :: rest, acc =>
    if c.isDigit then digitsVal rest (acc * 10 + (c.toNat - 48)) else none

/-- `strconv.Atoi`: optional sign, decimal digits, error on empty input,
any non-digit, or a value outside the `int64` range. -/
def atoi (s : String) : Option Int :=
  match s.data with
  | [] => none
  | '-' :: rest =>
    match rest with
    | [] => none
    | _ => (digitsVal rest 0).bind fun n =>
        if n ≤ 2 ^ 63 then some (-(n : Int)) else none
  | '+' :: rest =>
    match rest with
    | [] => none
    | _ => (digitsVal rest 0).bind fun n =>
        if n < 2 ^ 63 then some (n : Int) else none
  | l => (digitsVal l 0).bind fun n =>
      if n < 2 ^ 63 then some (n : Int) else none

/-- Go's `uint16(i)` conversion of an `int`: reduce modulo `2^16`. -/
def uint16ofInt (i : Int) : Nat := (i.emod 65536).toNat

/-- `strings.HasPrefix p s` (arguments: candidate then full string). -/
def hasPre : List Char → List Char → Bool
  | [], _ => true
  | _ :: _, [] => false
  | p :: ps, c :: cs => (p == c) && hasPre ps cs

/-! ### Data model and error constants (from the source `const` block) -/

def InvalidPortErrorMessage : String :=
  "Invalid port specified. Ports must be a comma-delimited list of integers between 0-65535."

def MalformedRouteErrorMessage : String :=
  "Malformed route. Routes must be of the format route:port"

def MustSetMonitoredPortErrorMessage : String :=
  "Must set monitored-port when specifying multiple exposed ports unless --no-monitor is set."

/-- `docker_app_runner.PortConfig`: `Monitored uint16`, `Exposed []uint16`
(the `uint16` values are carried as `Nat`s below `2^16`). -/
structure PortConfig where
  Monitored : Nat
  Exposed : List Nat
  deriving DecidableEq

/-- Modelled from the spec: `PortConfig.IsEmpty` lives in the external
`docker_app_runner` package (outside the given sources); spec rule §4.2(1)
keys the metadata branch on whether the metadata declares at least one
exposed port, so `IsEmpty` is "no exposed ports". -/
def PortConfig.IsEmpty (pc : PortConfig) : Bool := pc.Exposed.isEmpty

/-- The port-conversion loop of `getPortConfigFromArgs`: `strconv.Atoi`
each token in order; a parse failure or a value above 65535 aborts with
`none` (the Go code checks `err != nil || intPort > 65535` — there is no
lower bound check, so negative values fall through to the `uint16`
truncation). -/
def convertPorts : List String → Option (List Nat)
  | [] => some []
  | p :: rest =>
    match atoi p with
    | none => none
    | some intPort =>
      if 65535 < intPort then none
      else (convertPorts rest).map (fun l => uint16ofInt intPort :: l)

/-- `getPortConfigFromArgs` (lines 480–534).  Returns the Go
`(PortConfig, error)` pair: the second component is `some msg` exactly
when the Go error is non-nil, in which case the first component is the
zero-value `PortConfig{}`. -/
def getPortConfigFromArgs (portsFlag : String) (monitoredPortFlag : Int)
    (noMonitorFlag : Bool) (imageMetadataPorts : PortConfig) :
    PortConfig × Option String :=
  if portsFlag = "" ∧ imageMetadataPorts.IsEmpty = false then
    (imageMetadataPorts, none)
  else if portsFlag = "" ∧ imageMetadataPorts.IsEmpty = true ∧ noMonitorFlag = true then
    ({ Monitored := 0, Exposed := [8080] }, none)
  else if portsFlag = "" ∧ imageMetadataPorts.IsEmpty = true then
    ({ Monitored := 8080, Exposed := [8080] }, none)
  else
    if 1 < (goSplit portsFlag ',').length ∧ monitoredPortFlag = 0 ∧ noMonitorFlag = false then
      ({ Monitored := 0, Exposed := [] }, some MustSetMonitoredPortErrorMessage)
    else
      match convertPorts (sortStrings (goSplit portsFlag ',')) with
      | none => ({ Monitored := 0, Exposed := [] }, some InvalidPortErrorMessage)
      | some convertedPorts =>
        ({ Monitored :=
            if 1 < (goSplit portsFlag ',').length then uint16ofInt monitoredPortFlag
            else convertedPorts.headD 0,
           Exposed := convertedPorts }, none)

/-! ### Route override parsing (lines 536–555) -/

/-- `docker_app_runner.RouteOverride`.  `hostname` models the Go field
carrying the hostname prefix of the route; `port` is the `uint16` field
as a `Nat`. -/
structure RouteOverride where
  hostname : String
  port : Nat
  deriving DecidableEq

/-- The loop body of `parseRouteOverrides` over the comma-split segments:
empty segments are skipped; otherwise split the segment on `':'`,
`Atoi` the first field, and require at least two fields — any failure
aborts the whole parse with `MalformedRouteErrorMessage` (the Go code
returns `nil, err` immediately).  The port is stored through the
`uint16` conversion with no range check. -/
def parseRouteOverridesGo : List String → Except String (List RouteOverride)
  | [] => Except.ok []
  | route :: rest =>
    if route = "" then parseRouteOverridesGo rest
    else
      match atoi ((goSplit route ':').headD "") with
      | none => Except.error MalformedRouteErrorMessage
      | some maybePort =>
        if (goSplit route ':').length < 2 then Except.error MalformedRouteErrorMessage
        else
          (parseRouteOverridesGo rest).map
            (fun overrides =>
              { hostname := (goSplit route ':').getD 1 "",
                port := uint16ofInt maybePort } :: overrides)

/-- `parseRouteOverrides` (lines 536–555).  A `nil` Go slice is the empty
list (the slice is non-nil exactly when at least one override was
appended, i.e. the list is non-empty). -/
def parseRouteOverrides (routes : String) : Except String (List RouteOverride) :=
  parseRouteOverridesGo (goSplit routes ',')

/-! ### Environment resolution (lines 455–478, 557–564) -/

/-- `parseEnvVarPair` (lines 557–564): split on `'='`; with two or more
fields return the first two, otherwise the sole field with `""`. -/
def parseEnvVarPair (envVarPair : String) : String × String :=
  match goSplit envVarPair '=' with
  | n :: v :: _ => (n, v)
  | [n] => (n, "")
  | [] => ("", "")

/-- `grabVarFromEnv` (lines 470–478): first inherited entry of which
`name` is a string prefix (note: of the whole `NAME=VALUE` string). -/
def grabVarFromEnv (factoryEnv : List String) (name : String) : String :=
  match factoryEnv with
  | [] => ""
  | envVarPair :: rest =>
    if hasPre name.data envVarPair.data then (parseEnvVarPair envVarPair).2
    else grabVarFromEnv rest name

/-- Go `map[string]string` insertion (`environment[name] = value`):
replace the binding if the key is present, else append. -/
def mapInsert (m : List (String × String)) (k v : String) : List (String × String) :=
  match m with
  | [] => [(k, v)]
  | (k', v') :: rest => if k' = k then (k, v) :: rest else (k', v') :: mapInsert rest k v

/-- Lookup in the association-list rendering of the Go map. -/
def mapLookup (m : List (String × String)) (k : String) : Option String :=
  match m with
  | [] => none
  | (k', v') :: rest => if k' = k then some v' else mapLookup rest k

/-- `buildEnvironment` (lines 455–468): for each token, parse it as a
pair; when the parsed value is empty (bare `NAME` or `NAME=`) fall back
to the inherited-environment lookup; insert with last-wins. -/
def buildEnvironment (factoryEnv : List String) (envVars : List String) :
    List (String × String) :=
  envVars.foldl
    (fun environment envVarPair =>
      let nv := parseEnvVarPair envVarPair
      let value := if nv.2 = "" then grabVarFromEnv factoryEnv nv.1 else nv.2
      mapInsert environment nv.1 value)
    []

/-! ### The convergence poller and the orchestration flow

UI output and the exit handler are modelled as a list of emitted
`Event`s (the spec places output formatting out of scope, so each
`ui.Say`/`exitHandler.Exit` call site becomes one constructor carrying
its data). -/

inductive Event where
  | dot
  | newline
  | placementErrorMsg
  | exitPlacementError
  | scaling (appName : String) (instances : Nat)
  | scaleError (instances : Nat)
  | appScaledSuccessfully
  | tookTooLong (appName action : String)
  | isNowRunning (appName : String)
  | url (hostname : String)
  | indexOutOfRange
  deriving DecidableEq

/-- Result of one `pollUntilSuccess` run: the returned `ok`, the final
value of the state the predicate closure mutates, the emitted events,
and the clock times at which the predicate was invoked. -/
structure PollResult (σ : Type) where
  ok : Bool
  state : σ
  out : List Event
  calls : List Nat
  deriving DecidableEq

/-- The loop of `pollUntilSuccess` (lines 435–449).  Time is the
injected clock, advanced only by `clock.Sleep(interval)`; `t` is the
elapsed time since `startingTime`, and the loop runs while `t < T`
(Go: `startingTime.Add(timeout).After(clock.Now())`).  `step t s`
returns the predicate's result, the updated closure state, and the
events the predicate emitted.  `fuel` bounds the recursion; `T + 1` is
always sufficient for a positive interval. -/
def pollAux {σ : Type} (step : Nat → σ → Bool × σ × List Event) (prog : Bool)
    (ι T : Nat) : Nat → Nat → σ → PollResult σ
  | 0, _, s => ⟨false, s, [Event.newline], []⟩
  | fuel + 1, t, s =>
    if t < T then
      match step t s with
      | (true, s', o) => ⟨true, s', o ++ [Event.newline], [t]⟩
      | (false, s', o) =>
        let r := pollAux step prog ι T fuel (t + ι) s'
        ⟨r.ok, r.state, o ++ (if prog then [Event.dot] else []) ++ r.out, t :: r.calls⟩
    else ⟨false, s, [Event.newline], []⟩

/-- `pollUntilSuccess` with poll interval `ι` and timeout `T` in clock
ticks, started at elapsed time `0`. -/
def pollUntilSuccess {σ : Type} (step : Nat → σ → Bool × σ × List Event) (prog : Bool)
    (ι T : Nat) (s : σ) : PollResult σ :=
  pollAux step prog ι T (T + 1) 0 s

/-- The predicate closure of `pollUntilAllInstancesRunning`
(lines 389–397).  `trace t` is the cluster's
`RunningAppInstancesInfo` answer at clock time `t`:
`(numberOfRunningInstances, placementError)`.  The closure state is the
`placementErrorOccurred` flag, set strictly before returning `true`. -/
def runningInstancesStep (trace : Nat → Nat × Bool) (instances : Nat)
    (t : Nat) (flag : Bool) : Bool × Bool × List Event :=
  if (trace t).2 then (true, true, [Event.placementErrorMsg])
  else ((trace t).1 == instances, flag, [])

/-- `pollUntilAllInstancesRunning` (lines 387–407): poll, then check the
fatal flag before the converged result; on the flag signal the
`PlacementError` exit code and return `false`. -/
def pollUntilAllInstancesRunning (trace : Nat → Nat × Bool) (instances : Nat)
    (appName action : String) (ι T : Nat) : Bool × List Event :=
  let r := pollUntilSuccess (runningInstancesStep trace instances) true ι T false
  if r.state then (false, r.out ++ [Event.exitPlacementError])
  else if r.ok = false then (false, r.out ++ [Event.tookTooLong appName action])
  else (r.ok, r.out)

/-- `setAppInstances` (lines 370–385).  `scaleErr` is whether the
cluster rejected the `ScaleApp` submission. -/
def setAppInstances (scaleErr : Bool) (trace : Nat → Nat × Bool) (appName : String)
    (instances ι T : Nat) : List Event :=
  if scaleErr then [Event.scaleError instances]
  else
    let r := pollUntilAllInstancesRunning trace instances appName "scale" ι T
    [Event.scaling appName instances] ++ r.2 ++
      (if r.1 then [Event.appScaledSuccessfully] else [])

/-- The URL loop of `createApp` (lines 316–318): it re-splits the raw
`routesFlag` on commas and indexes `strings.Split(route, ":")[1]` with
no bounds check.  A segment whose colon-split has fewer than two fields
(an empty segment from a trailing comma, or a colon-less segment) makes
the Go runtime panic with an index-out-of-range error after the
earlier URLs were already printed; `Event.indexOutOfRange` marks that
crash, and nothing further is emitted. -/
def urlLoop : List String → List Event
  | [] => []
  | route :: rest =>
    if 2 ≤ (goSplit route ':').length then
      Event.url ((goSplit route ':').getD 1 "") :: urlLoop rest
    else [Event.indexOutOfRange]

/-- The tail of `createApp` after the convergence poll (lines 311–322):
the success message is guarded by `ok`, the URL block is not. -/
def createAppReport (ok : Bool) (routesFlag appName : String)
    (routeOverrides : List RouteOverride) : List Event :=
  (if ok then [Event.isNowRunning appName] else []) ++
    (if routeOverrides = [] then [Event.url appName]
     else urlLoop (goSplit routesFlag ','))

/-- Lines 309–322 of `createApp`: poll until all instances run, then
report. -/
def createAppConverge (trace : Nat → Nat × Bool) (instances : Nat)
    (appName routesFlag : String) (routeOverrides : List RouteOverride)
    (ι T : Nat) : List Event :=
  let r := pollUntilAllInstancesRunning trace instances appName "start" ι T
  r.2 ++ createAppReport r.1 routesFlag appName routeOverrides

/-! ### createApp argument validation (lines 201–231) -/

inductive CreateValidation where
  | usageError (msg : String)
  | proceed (appArgs : List String)
  deriving DecidableEq

/-- The `switch` at the top of `createApp`: Go runs the first matching
case only, so matching `len(args) > 4` skips the CPU-weight case.
`cpuWeightFlag` is the raw `int` flag; `uint(...)` is the `2^64`
reduction.  `Args().Get(i)` returns `""` out of range. -/
def createAppValidate (args : List String) (cpuWeightFlag : Int) : CreateValidation :=
  let terminator := args.getD 2 ""
  let startCommand := args.getD 3 ""
  let cpuWeight := (cpuWeightFlag.emod (2 ^ 64)).toNat
  if args.length < 2 then
    CreateValidation.usageError "APP_NAME and DOCKER_IMAGE are required"
  else if startCommand ≠ "" ∧ terminator ≠ "--" then
    CreateValidation.usageError "\x27--\x27 Required before start command"
  else if 4 < args.length then
    CreateValidation.proceed (args.drop 4)
  else if cpuWeight < 1 ∨ 100 < cpuWeight then
    CreateValidation.usageError "Invalid CPU Weight"
  else
    CreateValidation.proceed []

/-- Expected number of predicate invocations when the predicate never
converges: the poll times are `0, ι, 2ι, …` strictly below `T`, i.e.
`⌈(T − t)/ι⌉` of them starting from elapsed time `t`. -/
def expCalls (ι T t : Nat) : Nat := (T - t + ι - 1) / ι

/-- The clock times of `n` consecutive predicate invocations starting at
elapsed time `t` with interval `ι`: `t, t + ι, …, t + (n−1)ι`. -/
def pollTimes (ι : Nat) : Nat → Nat → List Nat
  | 0, _ => []
  | n + 1, t => t :: pollTimes ι n (t + ι)

/-! ### Shared helper lemmas -/

lemma mem_insertSorted {y x : String} {l : List String} :
    y ∈ insertSorted x l ↔ y = x ∨ y ∈ l := by
  induction l with
  | nil => simp [insertSorted]
  | cons z zs ih =>
    unfold insertSorted
    split
    · rw [List.mem_cons, ih, List.mem_cons]
      tauto
    · rw [List.mem_cons]

lemma mem_sortStrings {y : String} {l : List String} : y ∈ sortStrings l ↔ y ∈ l := by
  induction l with
  | nil => simp [sortStrings]
  | cons x xs ih => simp [sortStrings, mem_insertSorted, ih]

/-- A token that fails `Atoi` or parses above 65535 aborts the whole
port-conversion loop. -/
lemma convertPorts_none {l : List String}
    (h : ∃ tok ∈ l, atoi tok = none ∨ ∃ i, atoi tok = some i ∧ 65535 < i) :
    convertPorts l = none := by
  induction l with
  | nil => simp at h
  | cons p rest ih =>
    obtain ⟨tok, htok, hb⟩ := h
    rcases List.mem_cons.mp htok with rfl | hmem
    · unfold convertPorts
      rcases hb with hnone | ⟨i, hi, hgt⟩
      · rw [hnone]
      · rw [hi]
        simp [hgt]
    · have hrest := ih ⟨tok, hmem, hb⟩
      unfold convertPorts
      rw [hrest]
      cases atoi p <;> simp

/-! ### C1 — the Monitored-in-Exposed invariant of `getPortConfigFromArgs` -/

/-- C1, as stated, is false: with an explicit multi-port list the
monitored port is taken from the flag with no membership check.
`ports="80,90"`, `monitored-port=100` yields `Monitored = 100` with
`Exposed = [80, 90]` and no error. -/
theorem getPortConfig_invariant_cex :
    getPortConfigFromArgs "80,90" 100 false { Monitored := 0, Exposed := [] } =
        ({ Monitored := 100, Exposed := [80, 90] }, none) ∧
      ¬((100 : Nat) = 0 ∨ (100 : Nat) ∈ [80, 90]) := by
  constructor <;> decide

/-- C1 amended: if the call returns without error, then the invariant
`Monitored = 0 ∨ Monitored ∈ Exposed` holds provided (a) the image
metadata's own PortConfig satisfies it (the metadata branch copies it
verbatim) and (b) when the ports flag lists more than one port, the
monitored-port flag reduced mod 2^16 is among the returned exposed
ports (the code performs no such check itself). -/
theorem getPortConfig_invariant (portsFlag : String) (mflag : Int) (noMon : Bool)
    (meta pc : PortConfig)
    (hok : getPortConfigFromArgs portsFlag mflag noMon meta = (pc, none))
    (hmeta : meta.Monitored = 0 ∨ meta.Monitored ∈ meta.Exposed)
    (hmon : 1 < (goSplit portsFlag ',').length → uint16ofInt mflag ∈ pc.Exposed) :
    pc.Monitored = 0 ∨ pc.Monitored ∈ pc.Exposed := by
  unfold getPortConfigFromArgs at hok
  split_ifs at hok with h1 h2 h3 h4 h5
  · rw [Prod.mk.injEq] at hok
    obtain ⟨rfl, -⟩ := hok
    exact hmeta
  · rw [Prod.mk.injEq] at hok
    obtain ⟨rfl, -⟩ := hok
    left
    rfl
  · rw [Prod.mk.injEq] at hok
    obtain ⟨rfl, -⟩ := hok
    right
    simp
  · simp at hok
  · cases hcv : convertPorts (sortStrings (goSplit portsFlag ',')) with
    | none =>
      simp only [hcv] at hok
      simp at hok
    | some cp =>
      simp only [hcv] at hok
      rw [Prod.mk.injEq] at hok
      obtain ⟨rfl, -⟩ := hok
      right
      exact hmon h5
  · cases hcv : convertPorts (sortStrings (goSplit portsFlag ',')) with
    | none =>
      simp only [hcv] at hok
      simp at hok
    | some cp =>
      simp only [hcv] at hok
      rw [Prod.mk.injEq] at hok
      obtain ⟨rfl, -⟩ := hok
      cases cp with
      | nil => left; rfl
      | cons x xs =>
        right
        exact List.mem_cons_self x xs

/-- Witness for C1 amended: `ports="80,90"`, `monitored-port=80`. -/
theorem getPortConfig_invariant_witness :
    getPortConfigFromArgs "80,90" 80 false { Monitored := 0, Exposed := [] } =
        ({ Monitored := 80, Exposed := [80, 90] }, none) ∧
      ((80 : Nat) = 0 ∨ (80 : Nat) ∈ [80, 90]) :=
  ⟨by decide,
    getPortConfig_invariant "80,90" 80 false { Monitored := 0, Exposed := [] }
      { Monitored := 80, Exposed := [80, 90] } (by decide) (Or.inl rfl)
      (fun _ => by decide)⟩

/-! ### C2 — the InvalidPort error path -/

/-- C2, as stated, is false: the token `-1` parses under `Atoi` and the
code only checks the upper bound, so `ports="-1"` is accepted and
truncated to port 65535 with no error — the claim (and the InvalidPort
message's own text, integers between 0-65535) require rejection. -/
theorem invalidPort_negative_cex :
    getPortConfigFromArgs "-1" 0 false { Monitored := 0, Exposed := [] } =
        ({ Monitored := 65535, Exposed := [65535] }, none) ∧
      (none : Option String) ≠ some InvalidPortErrorMessage := by
  constructor <;> decide

/-- C2 amended: a non-empty ports string containing a token that fails
integer parsing or parses above 65535 yields exactly the InvalidPort
error and the zero PortConfig — provided the earlier
MustSetMonitoredPort guard (more than one token, monitored-port 0,
monitoring enabled) does not fire first.  Negative tokens are instead
accepted and truncated mod 2^16. -/
theorem invalidPort_error_amended (portsFlag : String) (mflag : Int) (noMon : Bool)
    (meta : PortConfig) (hne : portsFlag ≠ "")
    (hbad : ∃ tok ∈ goSplit portsFlag ',',
      atoi tok = none ∨ ∃ i, atoi tok = some i ∧ 65535 < i)
    (hmust : ¬(1 < (goSplit portsFlag ',').length ∧ mflag = 0 ∧ noMon = false)) :
    getPortConfigFromArgs portsFlag mflag noMon meta =
      ({ Monitored := 0, Exposed := [] }, some InvalidPortErrorMessage) := by
  have hcv : convertPorts (sortStrings (goSplit portsFlag ',')) = none := by
    obtain ⟨tok, htok, hb⟩ := hbad
    exact convertPorts_none ⟨tok, mem_sortStrings.mpr htok, hb⟩
  unfold getPortConfigFromArgs
  rw [if_neg (by simp [hne]), if_neg (by simp [hne]), if_neg (by simp [hne]),
    if_neg hmust, hcv]

/-- Witness for C2 amended: `ports="99999"`. -/
theorem invalidPort_error_amended_witness :
    ("99999" : String) ≠ "" ∧
      getPortConfigFromArgs "99999" 0 false { Monitored := 0, Exposed := [] } =
        ({ Monitored := 0, Exposed := [] }, some InvalidPortErrorMessage) :=
  ⟨by decide,
    invalidPort_error_amended "99999" 0 false { Monitored := 0, Exposed := [] }
      (by decide) (by decide) (by decide)⟩

/-! ### C5 — the cpu-weight range check and the `switch` fallthrough -/

/-- C5: the Go `switch` runs only the first matching case, so an
invocation with more than four positional arguments matches the
`len(args) > 4` case and never reaches the cpu-weight case: with
cpu-weight 0 and five arguments the command proceeds (and will fetch
metadata), while the identical four-argument invocation is rejected
with the usage error. -/
theorem cpu_weight_check_skipped :
    createAppValidate ["myapp", "myimage", "--", "run", "arg1"] 0 =
        CreateValidation.proceed ["arg1"] ∧
      createAppValidate ["myapp", "myimage", "--", "run"] 0 =
        CreateValidation.usageError "Invalid CPU Weight" := by
  constructor <;> decide

/-! ### C6 — the MustSetMonitoredPort error path -/

/-- C6: a ports string splitting into at least two tokens, with the
monitored-port flag at its zero value and monitoring enabled, fails
with exactly the MustSetMonitoredPort message and the zero-value
PortConfig, whatever the tokens and metadata. -/
theorem must_set_monitored_port (portsFlag : String) (mflag : Int) (noMon : Bool)
    (meta : PortConfig) (hlen : 2 ≤ (goSplit portsFlag ',').length)
    (hm : mflag = 0) (hnm : noMon = false) :
    getPortConfigFromArgs portsFlag mflag noMon meta =
      ({ Monitored := 0, Exposed := [] }, some MustSetMonitoredPortErrorMessage) := by
  have hne : portsFlag ≠ "" := by
    intro h
    rw [h] at hlen
    exact absurd hlen (by decide)
  unfold getPortConfigFromArgs
  rw [if_neg (by simp [hne]), if_neg (by simp [hne]), if_neg (by simp [hne]),
    if_pos ⟨by omega, hm, hnm⟩]

/-- Witness for C6: `ports="80,90"` with no monitored-port flag. -/
theorem must_set_monitored_port_witness :
    2 ≤ (goSplit "80,90" ',').length ∧
      getPortConfigFromArgs "80,90" 0 false { Monitored := 0, Exposed := [] } =
        ({ Monitored := 0, Exposed := [] }, some MustSetMonitoredPortErrorMessage) :=
  ⟨by decide,
    must_set_monitored_port "80,90" 0 false { Monitored := 0, Exposed := [] }
      (by decide) rfl rfl⟩

/-! ### C7 — environment tokens -/

/-- C7, as stated, is false: a token `NAME=` does not map `NAME` to the
empty string; the empty parsed value triggers the inherited-environment
fallback, here yielding the inherited `bar`. -/
theorem env_empty_value_cex :
    mapLookup (buildEnvironment ["FOO=bar"] ["FOO="]) "FOO" = some "bar" ∧
      ("bar" : String) ≠ "" := by
  constructor <;> decide

/-- C7 amended: a token splitting on `'='` as `NAME :: VALUE :: rest`
maps `NAME` to `VALUE` — the second field only, not the full text after
the first `'='` — unless `VALUE` is empty (token `NAME=` or longer), in
which case the value is taken from the inherited-environment lookup
exactly as for a bare `NAME`. -/
theorem buildEnvironment_amended (factoryEnv : List String) (tok n v : String)
    (rest : List String) (hsplit : goSplit tok '=' = n :: v :: rest) :
    mapLookup (buildEnvironment factoryEnv [tok]) n =
      some (if v = "" then grabVarFromEnv factoryEnv n else v) := by
  simp [buildEnvironment, parseEnvVarPair, hsplit, mapInsert, mapLookup]

/-- Witness for C7 amended: `-e FOO=x` with inherited `FOO=bar`. -/
theorem buildEnvironment_amended_witness :
    goSplit "FOO=x" '=' = ["FOO", "x"] ∧
      mapLookup (buildEnvironment ["FOO=bar"] ["FOO=x"]) "FOO" = some "x" :=
  ⟨rfl, (buildEnvironment_amended ["FOO=bar"] "FOO=x" "FOO" "x" [] rfl).trans (by decide)⟩

/-! ### C8 — route override parsing of well-formed inputs -/

/-- C8, as stated, is false: the hostname stored for a segment is only
the second colon-separated field, not the entire remainder after the
first colon — `"80:a:b"` yields hostname `"a"`, not `"a:b"`. -/
theorem route_colon_remainder_cex :
    parseRouteOverrides "80:a:b" = Except.ok [{ hostname := "a", port := 80 }] ∧
      ("a" : String) ≠ "a:b" :=
  ⟨rfl, by decide⟩

/-- The parsing loop on segments whose non-empty members are well
formed: one override per kept segment, in input order, duplicates
preserved, empty segments skipped. -/
lemma parseRouteOverridesGo_ok (segs : List String)
    (h : ∀ seg ∈ segs, seg ≠ "" →
      2 ≤ (goSplit seg ':').length ∧ (atoi ((goSplit seg ':').headD "")).isSome) :
    parseRouteOverridesGo segs = Except.ok
      ((segs.filter (fun seg => seg ≠ "")).map
        (fun seg =>
          { hostname := (goSplit seg ':').getD 1 "",
            port := uint16ofInt ((atoi ((goSplit seg ':').headD "")).getD 0) })) := by
  induction segs with
  | nil => rfl
  | cons route rest ih =>
    by_cases hr : route = ""
    · subst hr
      unfold parseRouteOverridesGo
      rw [if_pos rfl, ih (fun seg hs => h seg (List.mem_cons_of_mem _ hs))]
      simp
    · obtain ⟨hlen, hsome⟩ := h route (List.mem_cons_self _ _) hr
      obtain ⟨i, hi⟩ := Option.isSome_iff_exists.mp hsome
      have hlt : ¬((goSplit route ':').length < 2) := by omega
      unfold parseRouteOverridesGo
      rw [if_neg hr]
      simp only [hi]
      rw [if_neg hlt, ih (fun seg hs => h seg (List.mem_cons_of_mem _ hs))]
      simp only [List.filter_cons, hr, decide_not, Except.map, List.map_cons]
      simp [hr]
      rw [← List.headD_eq_head?, hi]
      rfl

/-- C8 amended: for a route string whose non-empty comma-separated
segments each have at least two colon-separated fields and a first
field accepted by `Atoi`, the parse succeeds and returns, in segment
order with duplicates preserved, one override per non-empty segment
with the parsed port reduced mod 2^16 and the second colon-field as
hostname; an entirely empty input yields the empty (nil) list. -/
theorem parseRouteOverrides_amended (routes : String)
    (h : ∀ seg ∈ goSplit routes ',', seg ≠ "" →
      2 ≤ (goSplit seg ':').length ∧ (atoi ((goSplit seg ':').headD "")).isSome) :
    parseRouteOverrides routes = Except.ok
      (((goSplit routes ',').filter (fun seg => seg ≠ "")).map
        (fun seg =>
          { hostname := (goSplit seg ':').getD 1 "",
            port := uint16ofInt ((atoi ((goSplit seg ':').headD "")).getD 0) })) :=
  parseRouteOverridesGo_ok _ h

/-- Witness for C8 amended: the spec's scenario
`routes="80:web,8080:api"`. -/
theorem parseRouteOverrides_amended_witness :
    (∀ seg ∈ goSplit "80:web,8080:api" ',', seg ≠ "" →
        2 ≤ (goSplit seg ':').length ∧ (atoi ((goSplit seg ':').headD "")).isSome) ∧
      parseRouteOverrides "80:web,8080:api" = Except.ok
        [{ hostname := "web", port := 80 }, { hostname := "api", port := 8080 }] :=
  ⟨by decide, (parseRouteOverrides_amended "80:web,8080:api" (by decide)).trans rfl⟩

/-! ### C10 — no range check on route ports -/

/-- C10: `parseRouteOverrides` accepts any segment whose first field
`Atoi` accepts — whatever its sign or size — and stores the value
reduced mod 2^16, with no MalformedRoute or out-of-range error. -/
theorem route_port_truncation (seg : String) (i : Int)
    (hc : goSplit seg ',' = [seg])
    (hlen : 2 ≤ (goSplit seg ':').length)
    (hi : atoi ((goSplit seg ':').headD "") = some i) :
    parseRouteOverrides seg = Except.ok
      [{ hostname := (goSplit seg ':').getD 1 "", port := uint16ofInt i }] := by
  have hne : seg ≠ "" := by
    intro h
    rw [h] at hlen
    exact absurd hlen (by decide)
  have hlt : ¬((goSplit seg ':').length < 2) := by omega
  unfold parseRouteOverrides
  rw [hc]
  unfold parseRouteOverridesGo
  rw [if_neg hne]
  simp only [hi]
  rw [if_neg hlt]
  rfl

/-- Witness for C10: `"70000:web"` is accepted and 70000 is stored as
port 4464. -/
theorem route_port_truncation_witness :
    goSplit "70000:web" ',' = ["70000:web"] ∧
      parseRouteOverrides "70000:web" =
        Except.ok [{ hostname := "web", port := 4464 }] :=
  ⟨rfl, (route_port_truncation "70000:web" 70000 rfl (by decide) rfl).trans rfl⟩

/-! ### Poller arithmetic and loop lemmas -/

lemma expCalls_of_ge {ι T t : Nat} (hι : 0 < ι) (h : T ≤ t) : expCalls ι T t = 0 := by
  unfold expCalls
  have h0 : T - t = 0 := by omega
  rw [h0]
  exact Nat.div_eq_of_lt (by omega)

lemma expCalls_succ {ι T t : Nat} (hι : 0 < ι) (h : t < T) :
    expCalls ι T t = expCalls ι T (t + ι) + 1 := by
  unfold expCalls
  have h1 : T - t + ι - 1 = (T - t - 1) + ι := by omega
  rw [h1, Nat.add_div_right _ hι]
  rcases le_or_lt (T - t) ι with hle | hlt
  · have h2 : T - (t + ι) = 0 := by omega
    rw [h2]
    have h3 : (T - t - 1) / ι = 0 := Nat.div_eq_of_lt (by omega)
    have h4 : (0 + ι - 1) / ι = 0 := Nat.div_eq_of_lt (by omega)
    omega
  · have h2 : T - (t + ι) + ι - 1 = T - t - 1 := by omega
    rw [h2]

lemma expCalls_le_fuel {ι T : Nat} (hι : 0 < ι) : expCalls ι T 0 ≤ T + 1 := by
  unfold expCalls
  rcases Nat.eq_zero_or_pos T with rfl | hT
  · have h0 : (0 - 0 + ι - 1) / ι = 0 := Nat.div_eq_of_lt (by omega)
    omega
  · have h1 : T - 0 + ι - 1 = (T - 1) + ι := by omega
    rw [h1, Nat.add_div_right _ hι]
    have h2 := Nat.div_le_self (T - 1) ι
    omega

/-- A poll index below the expected call count corresponds to a poll
time strictly inside the timeout window. -/
lemma lt_of_lt_expCalls {ι T j : Nat} (hι : 0 < ι) (hj : j < expCalls ι T 0) :
    j * ι < T := by
  rcases Nat.eq_zero_or_pos T with rfl | hT
  · exact absurd hj (by simp [expCalls_of_ge hι (Nat.le_refl 0)])
  · unfold expCalls at hj
    have h1 : (j + 1) * ι ≤ ((T - 0 + ι - 1) / ι) * ι :=
      Nat.mul_le_mul_right ι hj
    have h2 : ((T - 0 + ι - 1) / ι) * ι ≤ T - 0 + ι - 1 := Nat.div_mul_le_self _ _
    have h3 : (j + 1) * ι = j * ι + ι := Nat.succ_mul j ι
    omega

lemma pollTimes_length (ι : Nat) : ∀ n t, (pollTimes ι n t).length = n := by
  intro n
  induction n with
  | zero => intro t; rfl
  | succ n ih => intro t; simp [pollTimes, ih]

lemma pollTimes_mem (ι : Nat) :
    ∀ n t c, c ∈ pollTimes ι n t → ∃ j, j < n ∧ c = t + j * ι := by
  intro n
  induction n with
  | zero => intro t c hc; simp [pollTimes] at hc
  | succ n ih =>
    intro t c hc
    rcases List.mem_cons.mp hc with rfl | hc
    · exact ⟨0, by omega, by ring⟩
    · obtain ⟨j, hj, rfl⟩ := ih (t + ι) c hc
      exact ⟨j + 1, by omega, by ring⟩

/-- The poll loop under a predicate that never succeeds: it times out
having been invoked at exactly the times `t, t+ι, …` strictly below
`T`. -/
lemma pollAux_never {pred : Nat → Bool} (hpred : ∀ u, pred u = false) (prog : Bool)
    {ι T : Nat} (hι : 0 < ι) :
    ∀ fuel t, expCalls ι T t ≤ fuel →
      (pollAux (fun u s => (pred u, s, [])) prog ι T fuel t ()).ok = false ∧
        (pollAux (fun u s => (pred u, s, [])) prog ι T fuel t ()).calls =
          pollTimes ι (expCalls ι T t) t := by
  intro fuel
  induction fuel with
  | zero =>
    intro t hf
    have h0 : expCalls ι T t = 0 := by omega
    rw [h0]
    exact ⟨rfl, rfl⟩
  | succ fuel ih =>
    intro t hf
    by_cases ht : t < T
    · have hsucc := expCalls_succ hι ht
      obtain ⟨iok, icalls⟩ := ih (t + ι) (by omega)
      rw [hsucc]
      unfold pollAux
      rw [if_pos ht]
      simp only [hpred t]
      exact ⟨by simpa using iok, by simp [pollTimes, icalls]⟩
    · have h0 : expCalls ι T t = 0 := expCalls_of_ge hι (by omega)
      rw [h0]
      unfold pollAux
      rw [if_neg ht]
      exact ⟨rfl, rfl⟩

/-! ### C3 — predicate invocation count on timeout -/

/-- C3, as stated, is false: with interval 1 and timeout 1 the loop
condition `now < start + timeout` admits only the poll at t = 0, so a
never-true predicate is invoked once, not `floor(1/1) + 1 = 2` times. -/
theorem poll_count_cex :
    (pollUntilSuccess (fun _ (s : Unit) => (false, s, [])) true 1 1 ()).calls.length = 1 ∧
      1 / 1 + 1 = 2 := by
  constructor <;> decide

/-- C3 amended: for a positive interval and positive timeout and a
predicate that never returns true, the poller returns TimedOut (false)
after invoking the predicate exactly `⌈timeout/interval⌉` times — which
is `floor(timeout/interval) + 1` when the timeout is not an exact
multiple of the interval, and one fewer when it is — with the first
call at t = 0 and no call at or after timeout expiry. -/
theorem poll_timeout_count (pred : Nat → Bool) (ι T : Nat) (hι : 0 < ι) (hT : 0 < T)
    (hpred : ∀ u, pred u = false) :
    (pollUntilSuccess (fun u s => (pred u, s, [])) true ι T ()).ok = false ∧
      (pollUntilSuccess (fun u s => (pred u, s, [])) true ι T ()).calls.length =
        (T + ι - 1) / ι ∧
      (pollUntilSuccess (fun u s => (pred u, s, [])) true ι T ()).calls.headD 1 = 0 ∧
      ∀ c ∈ (pollUntilSuccess (fun u s => (pred u, s, [])) true ι T ()).calls, c < T := by
  have hE : expCalls ι T 0 = (T + ι - 1) / ι := by simp [expCalls]
  obtain ⟨hok, hcalls⟩ := pollAux_never hpred true hι (T + 1) 0 (expCalls_le_fuel hι)
  have hpos : 0 < expCalls ι T 0 := by
    unfold expCalls
    have h1 : ι ≤ T - 0 + ι - 1 := by omega
    have h2 := Nat.div_le_div_right (c := ι) h1
    rw [Nat.div_self hι] at h2
    omega
  refine ⟨hok, ?_, ?_, ?_⟩
  · rw [show (pollUntilSuccess (fun u s => (pred u, s, [])) true ι T ()).calls =
        pollTimes ι (expCalls ι T 0) 0 from hcalls, pollTimes_length, hE]
  · rw [show (pollUntilSuccess (fun u s => (pred u, s, [])) true ι T ()).calls =
        pollTimes ι (expCalls ι T 0) 0 from hcalls]
    rcases hn : expCalls ι T 0 with - | n
    · omega
    · rfl
  · intro c hc
    rw [show (pollUntilSuccess (fun u s => (pred u, s, [])) true ι T ()).calls =
        pollTimes ι (expCalls ι T 0) 0 from hcalls] at hc
    obtain ⟨j, hj, rfl⟩ := pollTimes_mem ι _ 0 c hc
    have := lt_of_lt_expCalls hι hj
    omega

/-- Witness for C3 amended: interval 1, timeout 3, three calls. -/
theorem poll_timeout_count_witness :
    (0 : Nat) < 3 ∧
      (pollUntilSuccess (fun _u (s : Unit) => (false, s, [])) true 1 3 ()).calls.length =
        (3 + 1 - 1) / 1 :=
  ⟨by decide,
    (poll_timeout_count (fun _ => false) 1 3 (by decide) (by decide) (fun _ => rfl)).2.1⟩

/-! ### The poll loop reaching a first true predicate -/

/-- If the predicate (with unchanged state and no output) is false at
the first `k` poll times and true at the `(k+1)`-st, which is still
inside the timeout window, the loop converges there: `ok = true`, the
state is the one the succeeding step produced, and the predicate was
invoked exactly at `t, t+ι, …, t+kι`. -/
lemma pollAux_reaches {σ : Type} (step : Nat → σ → Bool × σ × List Event) (prog : Bool)
    (ι T : Nat) (s s' : σ) (ev : List Event) :
    ∀ k fuel t, k < fuel →
      (∀ j, j < k → step (t + j * ι) s = (false, s, [])) →
      step (t + k * ι) s = (true, s', ev) →
      t + k * ι < T →
      (pollAux step prog ι T fuel t s).ok = true ∧
        (pollAux step prog ι T fuel t s).state = s' ∧
        (pollAux step prog ι T fuel t s).calls = pollTimes ι (k + 1) t := by
  intro k
  induction k with
  | zero =>
    intro fuel t hfk hfalse htrue hT
    obtain ⟨fuel, rfl⟩ : ∃ f, fuel = f + 1 := ⟨fuel - 1, by omega⟩
    have ht0 : t + 0 * ι = t := by ring
    rw [ht0] at htrue hT
    unfold pollAux
    rw [if_pos hT]
    simp only [htrue]
    exact ⟨by trivial, by trivial, rfl⟩
  | succ k ih =>
    intro fuel t hfk hfalse htrue hT
    obtain ⟨fuel, rfl⟩ : ∃ f, fuel = f + 1 := ⟨fuel - 1, by omega⟩
    have hmul : 0 ≤ (k + 1) * ι := Nat.zero_le _
    have ht : t < T := by omega
    have hstep0 : step t s = (false, s, []) := by
      have h := hfalse 0 (by omega)
      rwa [show t + 0 * ι = t by ring] at h
    have ihinst := ih fuel (t + ι) (by omega)
      (fun j hj => by
        have h := hfalse (j + 1) (by omega)
        rwa [show t + (j + 1) * ι = t + ι + j * ι by ring] at h)
      (by rwa [show t + ι + k * ι = t + (k + 1) * ι by ring])
      (by rwa [show t + ι + k * ι = t + (k + 1) * ι by ring])
    obtain ⟨iok, istate, icalls⟩ := ihinst
    unfold pollAux
    rw [if_pos ht]
    simp only [hstep0]
    exact ⟨by simpa using iok, by simpa using istate, by simp [pollTimes, icalls]⟩

/-- Every event the poll loop emits under the instances predicate is a
progress dot, a newline, or the placement-error message. -/
lemma pollAux_out_sub {σ : Type} (step : Nat → σ → Bool × σ × List Event) (prog : Bool)
    (ι T : Nat) (P : Event → Prop)
    (hstep : ∀ t s e, e ∈ (step t s).2.2 → P e)
    (hdot : P Event.dot) (hnl : P Event.newline) :
    ∀ fuel t s e, e ∈ (pollAux step prog ι T fuel t s).out → P e := by
  intro fuel
  induction fuel with
  | zero =>
    intro t s e he
    simp only [pollAux] at he
    rcases List.mem_singleton.mp he with rfl
    exact hnl
  | succ fuel ih =>
    intro t s e he
    unfold pollAux at he
    split at he
    · rcases hs : step t s with ⟨b, s2, o⟩
      rw [hs] at he
      cases b
      · simp only at he
        rcases List.mem_append.mp he with h | h
        · rcases List.mem_append.mp h with h' | h'
          · exact hstep t s e (by rw [hs]; exact h')
          · by_cases hprog : prog = true
            · rw [if_pos hprog] at h'
              rcases List.mem_singleton.mp h' with rfl
              exact hdot
            · rw [if_neg hprog] at h'
              cases h'
        · exact ih (t + ι) s2 e h
      · simp only at he
        rcases List.mem_append.mp he with h | h
        · exact hstep t s e (by rw [hs]; exact h)
        · rcases List.mem_singleton.mp h with rfl
          exact hnl
    · rcases List.mem_singleton.mp he with rfl
      exact hnl

/-- Specialization: under `runningInstancesStep` the poll output
consists only of dots, newlines and the placement-error message. -/
lemma pollRunning_out_sub (trace : Nat → Nat × Bool) (instances : Nat) (prog : Bool)
    (ι T : Nat) (s : Bool) :
    ∀ e ∈ (pollUntilSuccess (runningInstancesStep trace instances) prog ι T s).out,
      e = Event.dot ∨ e = Event.newline ∨ e = Event.placementErrorMsg := by
  intro e he
  refine pollAux_out_sub (runningInstancesStep trace instances) prog ι T
    (fun e => e = Event.dot ∨ e = Event.newline ∨ e = Event.placementErrorMsg)
    ?_ (Or.inl rfl) (Or.inr (Or.inl rfl)) (T + 1) 0 s e he
  intro t s' e' he'
  unfold runningInstancesStep at he'
  split at he'
  · rcases List.mem_singleton.mp he' with rfl
    exact Or.inr (Or.inr rfl)
  · simp at he'

/-- Events emitted by `pollUntilAllInstancesRunning`. -/
lemma pollUntilAll_out_sub (trace : Nat → Nat × Bool) (instances : Nat)
    (appName action : String) (ι T : Nat) :
    ∀ e ∈ (pollUntilAllInstancesRunning trace instances appName action ι T).2,
      e = Event.dot ∨ e = Event.newline ∨ e = Event.placementErrorMsg ∨
        e = Event.exitPlacementError ∨ e = Event.tookTooLong appName action := by
  intro e he
  simp only [pollUntilAllInstancesRunning] at he
  split_ifs at he
  · rcases List.mem_append.mp he with h | h
    · rcases pollRunning_out_sub trace instances true ι T false e h with h' | h' | h' <;>
        simp [h']
    · rcases List.mem_singleton.mp h with rfl
      simp
  · rcases List.mem_append.mp he with h | h
    · rcases pollRunning_out_sub trace instances true ι T false e h with h' | h' | h' <;>
        simp [h']
    · rcases List.mem_singleton.mp h with rfl
      simp
  · rcases pollRunning_out_sub trace instances true ι T false e he with h' | h' | h' <;>
      simp [h']

/-! ### C4 — placement error is fatal, exits, and suppresses success -/

/-- C4: if the cluster reports a placement error on a poll that is
actually reached (every earlier poll saw neither a placement error nor
the target instance count), polling ends on exactly that poll, the
poller's fatal flag makes `pollUntilAllInstancesRunning` return `false`
and signal the PlacementError exit code, and `setAppInstances` emits no
"App Scaled Successfully" message. -/
theorem placement_error_fatal (trace : Nat → Nat × Bool) (instances : Nat)
    (appName : String) (ι T k : Nat) (hι : 0 < ι) (hk : k * ι < T)
    (hp : (trace (k * ι)).2 = true)
    (hprev : ∀ j, j < k → (trace (j * ι)).2 = false ∧ (trace (j * ι)).1 ≠ instances) :
    (pollUntilAllInstancesRunning trace instances appName "scale" ι T).1 = false ∧
      Event.exitPlacementError ∈
        (pollUntilAllInstancesRunning trace instances appName "scale" ι T).2 ∧
      (pollUntilSuccess (runningInstancesStep trace instances) true ι T false).calls =
        pollTimes ι (k + 1) 0 ∧
      Event.exitPlacementError ∈ setAppInstances false trace appName instances ι T ∧
      Event.appScaledSuccessfully ∉ setAppInstances false trace appName instances ι T := by
  have hstep_false : ∀ j, j < k →
      runningInstancesStep trace instances (0 + j * ι) false = (false, false, []) := by
    intro j hj
    obtain ⟨hpe, hrun⟩ := hprev j hj
    simp [runningInstancesStep, hpe, hrun]
  have hstep_true : runningInstancesStep trace instances (0 + k * ι) false =
      (true, true, [Event.placementErrorMsg]) := by
    simp [runningInstancesStep, hp]
  have hkfuel : k < T + 1 := by
    have h1 : k ≤ k * ι := Nat.le_mul_of_pos_right k hι
    omega
  obtain ⟨hok, hstate, hcalls⟩ :=
    pollAux_reaches (runningInstancesStep trace instances) true ι T false true
      [Event.placementErrorMsg] k (T + 1) 0 hkfuel hstep_false hstep_true
      (by simpa using hk)
  have hstate' : (pollUntilSuccess (runningInstancesStep trace instances) true ι T
      false).state = true := hstate
  have hcalls' : (pollUntilSuccess (runningInstancesStep trace instances) true ι T
      false).calls = pollTimes ι (k + 1) 0 := hcalls
  have hpoll : pollUntilAllInstancesRunning trace instances appName "scale" ι T =
      (false, (pollUntilSuccess (runningInstancesStep trace instances) true ι T false).out ++
        [Event.exitPlacementError]) := by
    simp only [pollUntilAllInstancesRunning]
    rw [if_pos hstate']
  have hnot : Event.appScaledSuccessfully ∉
      (pollUntilSuccess (runningInstancesStep trace instances) true ι T false).out := by
    intro hmem
    rcases pollRunning_out_sub trace instances true ι T false _ hmem with h | h | h <;>
      cases h
  have hset : setAppInstances false trace appName instances ι T =
      Event.scaling appName instances ::
        ((pollUntilSuccess (runningInstancesStep trace instances) true ι T false).out ++
          [Event.exitPlacementError]) := by
    simp [setAppInstances, hpoll]
  refine ⟨by rw [hpoll], by rw [hpoll]; simp, hcalls', ?_, ?_⟩
  · rw [hset]
    simp
  · rw [hset]
    intro hmem
    rcases List.mem_cons.mp hmem with h | h
    · simp at h
    · rcases List.mem_append.mp h with h' | h'
      · exact hnot h'
      · simp at h'

/-- Witness for C4: placement error on the very first poll. -/
theorem placement_error_fatal_witness :
    (0 : Nat) * 1 < 1 ∧
      Event.appScaledSuccessfully ∉
        setAppInstances false (fun _ => (0, true)) "a" 1 1 1 :=
  ⟨by decide,
    (placement_error_fatal (fun _ => (0, true)) 1 "a" 1 1 0 (by decide) (by decide) rfl
      (fun j hj => absurd hj (Nat.not_lt_zero j))).2.2.2.2⟩

/-! ### C9 — the create flow's success report and URL output -/

/-- C9, as stated, is false: on a poll that times out (here the cluster
never reports the target count within the window),
`pollUntilAllInstancesRunning` returns false and yet the application
URL is still printed — the URL block in `createApp` sits outside the
`if ok` guard. -/
theorem url_printed_on_failure_cex :
    (pollUntilAllInstancesRunning (fun _ => (0, false)) 1 "myapp" "start" 1 1).1 = false ∧
      Event.url "myapp" ∈ createAppConverge (fun _ => (0, false)) 1 "myapp" "" [] 1 1 := by
  constructor <;> decide

/-- The success message is never produced by the URL loop, whose
output is urls up to a possible index-out-of-range crash. -/
lemma isNowRunning_not_mem_urlLoop (appName : String) :
    ∀ segs, Event.isNowRunning appName ∉ urlLoop segs := by
  intro segs
  induction segs with
  | nil => simp [urlLoop]
  | cons route rest ih =>
    unfold urlLoop
    split
    · intro h
      rcases List.mem_cons.mp h with h' | h'
      · cases h'
      · exact ih h'
    · simp

/-- When every comma segment is non-empty with at least two colon
fields and the route parse succeeded, the URL loop emits exactly one
URL per parsed override, carrying that override's hostname prefix, in
order — the re-split of the raw flag agrees with the overrides. -/
lemma urlLoop_matches_overrides (segs : List String)
    (h : ∀ seg ∈ segs, seg ≠ "" ∧ 2 ≤ (goSplit seg ':').length) :
    ∀ overrides, parseRouteOverridesGo segs = Except.ok overrides →
      urlLoop segs = overrides.map (fun o => Event.url o.hostname) := by
  induction segs with
  | nil =>
    intro overrides hov
    simp only [parseRouteOverridesGo, Except.ok.injEq] at hov
    subst hov
    rfl
  | cons route rest ih =>
    intro overrides hov
    obtain ⟨hne, hlen⟩ := h route (List.mem_cons_self _ _)
    have hrest := fun s hs => h s (List.mem_cons_of_mem _ hs)
    unfold parseRouteOverridesGo at hov
    rw [if_neg hne] at hov
    cases hat : atoi ((goSplit route ':').headD "") with
    | none =>
      rw [hat] at hov
      simp at hov
    | some i =>
      simp only [hat] at hov
      rw [if_neg (show ¬((goSplit route ':').length < 2) by omega)] at hov
      cases hrec : parseRouteOverridesGo rest with
      | error e =>
        rw [hrec] at hov
        simp [Except.map] at hov
      | ok l =>
        rw [hrec] at hov
        simp only [Except.map, Except.ok.injEq] at hov
        subst hov
        unfold urlLoop
        rw [if_pos hlen, ih hrest l hrec]
        simp

/-- C9 amended: after submission, the success message
(`name` is now running) is printed exactly when the convergence poll
succeeds; the URL output is printed unconditionally after polling, on
success, timeout and fatal placement alike — one URL derived from the
application name when no overrides were given, and, when overrides
were given and every comma segment of the routes flag is non-empty
with a colon, one URL per override's hostname prefix (on a malformed
segment the URL loop instead crashes re-indexing the raw flag). -/
theorem create_report_amended (trace : Nat → Nat × Bool) (instances : Nat)
    (appName routesFlag : String) (overrides : List RouteOverride) (ι T : Nat) :
    (Event.isNowRunning appName ∈
        createAppConverge trace instances appName routesFlag overrides ι T ↔
      (pollUntilAllInstancesRunning trace instances appName "start" ι T).1 = true) ∧
      (overrides = [] →
        Event.url appName ∈
          createAppConverge trace instances appName routesFlag overrides ι T) ∧
      (overrides ≠ [] →
        parseRouteOverrides routesFlag = Except.ok overrides →
        (∀ seg ∈ goSplit routesFlag ',', seg ≠ "" ∧ 2 ≤ (goSplit seg ':').length) →
        urlLoop (goSplit routesFlag ',') =
            overrides.map (fun o => Event.url o.hostname) ∧
          ∀ o ∈ overrides, Event.url o.hostname ∈
            createAppConverge trace instances appName routesFlag overrides ι T) := by
  have hnotpoll : Event.isNowRunning appName ∉
      (pollUntilAllInstancesRunning trace instances appName "start" ι T).2 := by
    intro hmem
    rcases pollUntilAll_out_sub trace instances appName "start" ι T _ hmem with
      h | h | h | h | h <;> cases h
  refine ⟨?_, ?_, ?_⟩
  · constructor
    · intro h
      unfold createAppConverge at h
      rw [List.mem_append] at h
      rcases h with h | h
      · exact absurd h hnotpoll
      · unfold createAppReport at h
        rw [List.mem_append] at h
        rcases h with h | h
        · split at h
          · assumption
          · cases h
        · split at h
          · exact absurd (List.mem_singleton.mp h) (by simp)
          · exact absurd h (isNowRunning_not_mem_urlLoop appName _)
    · intro h
      unfold createAppConverge createAppReport
      rw [List.mem_append]
      right
      rw [List.mem_append]
      left
      rw [if_pos h]
      simp
  · intro hnil
    unfold createAppConverge createAppReport
    rw [if_pos hnil]
    simp
  · intro hne hpar hwf
    have hurl := urlLoop_matches_overrides (goSplit routesFlag ',') hwf overrides hpar
    refine ⟨hurl, ?_⟩
    intro o ho
    unfold createAppConverge createAppReport
    rw [if_neg hne]
    rw [List.mem_append, List.mem_append]
    right
    right
    rw [hurl]
    exact List.mem_map_of_mem _ ho

/-- Witness for C9 amended: no route overrides — the name-derived URL
is emitted even though this particular poll fails. -/
theorem create_report_amended_witness :
    ([] : List RouteOverride) = [] ∧
      Event.url "a" ∈ createAppConverge (fun _ => (0, false)) 1 "a" "" [] 1 1 :=
  ⟨rfl, (create_report_amended (fun _ => (0, false)) 1 "a" "" [] 1 1).2.1 rfl⟩

end Ltc
